import Mathlib

/-!
Verification development for fritzing2kicad.py, a converter from Fritzing
component packages to KiCad footprint and symbol files.

Modelling conventions:
* Python strings are modelled as `List Char` (abbreviated `Str`).
* Python float arithmetic is modelled exactly over `ℚ`; all constants of the
  source (0.0254, 2.54, 0.1, 0.6, 0.65, ...) are exact decimals.
* Fallible operations return `Option`; `none` models a raised exception.
* The drawing tree is a mutual inductive (elements and child lists) walked by
  mutual structural recursion; the string helpers replace and repr carry a
  fuel argument, with enough fuel supplied for every call, so that every
  definition evaluates by kernel reduction.
-/

namespace Fritzing

attribute [local semireducible] Rat.mul Rat.add Rat.inv Rat.sub Rat.ofScientific

abbrev Str := List Char

/-- ASCII decimal digit test, the digit check used when modelling int(). -/
def isPyDigit (c : Char) : Bool := decide ('0' ≤ c) && decide (c ≤ '9')

/-- ASCII whitespace accepted by int() around a numeral (Python also accepts
some unicode spaces; the model restricts to ASCII). -/
def isPySpace (c : Char) : Bool :=
  c == ' ' || c == '\t' || c == '\n' || c == '\r' || c == '\x0b' || c == '\x0c'

/-- Models str.strip() with ASCII whitespace. -/
def stripWS (s : Str) : Str :=
  ((s.dropWhile isPySpace).reverse.dropWhile isPySpace).reverse

/-- Models str.lower() on ASCII text. -/
def lowerL (s : Str) : Str := s.map Char.toLower

/-- Models Python substring membership, pat in s. -/
def hasSub (pat : Str) : Str → Bool
  | [] => pat.isPrefixOf []
  | c :: rest => pat.isPrefixOf (c :: rest) || hasSub pat rest

/-- The decimal digit characters, as produced by str() on a natural number. -/
def digitChar : ℕ → Char
  | 0 => '0' | 1 => '1' | 2 => '2' | 3 => '3' | 4 => '4'
  | 5 => '5' | 6 => '6' | 7 => '7' | 8 => '8' | _ => '9'

/-- Decimal representation of a natural number, fuel-based so that the kernel
can evaluate it; `natRepr` supplies sufficient fuel. -/
def natReprAux : ℕ → ℕ → Str
  | 0, _ => []
  | f + 1, n =>
    if n < 10 then [digitChar n] else natReprAux f (n / 10) ++ [digitChar (n % 10)]

/-- Models Python str(n) for a natural number. -/
def natRepr (n : ℕ) : Str := natReprAux (n + 1) n

/-- Models Python str(n) on an int. -/
def intRepr (n : ℤ) : Str := if n < 0 then '-' :: natRepr n.natAbs else natRepr n.toNat

/-- One step of decimal accumulation: acc * 10 plus the digit value of c. -/
def digStep (acc : ℕ) (c : Char) : ℕ := 10 * acc + (c.toNat - 48)

/-- Digit run of int() after the first digit: digits with single underscores
allowed between digits. -/
def parseDigitsAux (acc : ℕ) : Str → Option ℕ
  | [] => some acc
  | c :: rest =>
    if isPyDigit c then parseDigitsAux (digStep acc c) rest
    else if c = '_' then
      match rest with
      | [] => none
      | d :: rest2 => if isPyDigit d then parseDigitsAux (digStep acc d) rest2 else none
    else none

/-- The digit run after the optional sign: must start with a digit. -/
def natPart : Str → Option ℕ
  | [] => none
  | c :: rest => if isPyDigit c then parseDigitsAux (digStep 0 c) rest else none

/-- Sign handling of int() after whitespace stripping. -/
def pyIntCore : Str → Option ℤ
  | [] => none
  | c :: rest =>
    if c = '+' then (natPart rest).map (fun n => (n : ℤ))
    else if c = '-' then (natPart rest).map (fun n => -(n : ℤ))
    else (natPart (c :: rest)).map (fun n => (n : ℤ))

/-- Models Python int(s) on a string: optional surrounding whitespace, optional
sign, decimal digits with optional single underscores between digits; `none`
models the raised ValueError. -/
def pyInt (s : Str) : Option ℤ := pyIntCore (stripWS s)

/-- Models str.replace(pat, rep): replaces non-overlapping occurrences left to
right. Fuel-based (any fuel at least the length of the subject suffices). -/
def replaceAllAux (pat rep : Str) : ℕ → Str → Str
  | _, [] => []
  | 0, l => l
  | f + 1, c :: rest =>
    if !pat.isEmpty && pat.isPrefixOf (c :: rest) then
      rep ++ replaceAllAux pat rep f ((c :: rest).drop pat.length)
    else
      c :: replaceAllAux pat rep f rest

/-- Models s.replace(pat, rep). -/
def replaceAll (pat rep s : Str) : Str := replaceAllAux pat rep s.length s

/-- Pin number rule of parse_metadata (lines 76-80): an id starting with
"connector" has every occurrence of "connector" removed; when the remainder
parses as an int n the pin number is str(n + 1), any failure leaves the id
unchanged. -/
def pin_num_of (cid : Str) : Str :=
  if ("connector".data).isPrefixOf cid then
    match pyInt (replaceAll ("connector".data) [] cid) with
    | some n => intRepr (n + 1)
    | none => cid
  else cid

/-- Truncation to 15 characters (parse_metadata line 73). -/
def truncate15 (fn : Str) : Str := if 15 < fn.length then fn.take 15 else fn

/-- Truncation followed by the "passive" replacement (parse_metadata
lines 73-74). -/
def nameFinish (fn : Str) (cid : Str) : Str :=
  if lowerL (truncate15 fn) = "passive".data then cid else truncate15 fn

/-- Connector name resolution of parse_metadata (lines 62-74): the stripped
description text when the description is present with truthy text stripping to
non-empty, else the raw name attribute; `none` models the TypeError raised by
len(None) when neither is available. -/
def connector_name (name_attr : Option Str) (desc_text : Option Str) (cid : Str) : Option Str :=
  let base : Option Str :=
    match desc_text with
    | some t => if t ≠ [] ∧ stripWS t ≠ [] then some (stripWS t) else name_attr
    | none => name_attr
  match base with
  | none => none
  | some fn => some (nameFinish fn cid)

/-- A p sub-element of a connector's pcbView: its layer id and svgId. -/
structure PElem where
  layer : Str
  svgId : Option Str
deriving DecidableEq

/-- A connector element of the descriptor, as the XML collaborator delivers it. -/
structure RawConn where
  cid : Str
  name_attr : Option Str
  desc_text : Option Str
  ps : List PElem
deriving DecidableEq

/-- One entry of the connector table built by parse_metadata. -/
structure ConnData where
  cid : Str
  name : Str
  pin : Str
  svg_id : Option Str
  is_tht : Bool
deriving DecidableEq

/-- One iteration of the connector loop of parse_metadata (lines 59-101):
the svgId recorded is the last one seen, the pad is through-hole iff both
copper0 and copper1 layers appear; none models the uncaught TypeError. -/
def parse_connector (r : RawConn) : Option ConnData :=
  match connector_name r.name_attr r.desc_text r.cid with
  | none => none
  | some nm =>
    let sid := r.ps.foldl (fun _ p => p.svgId) none
    let c0 := r.ps.any (fun p => p.layer == "copper0".data)
    let c1 := r.ps.any (fun p => p.layer == "copper1".data)
    some ⟨r.cid, nm, pin_num_of r.cid, sid, c0 && c1⟩

/-- The whole connector loop: an exception at any connector aborts the whole
metadata extraction. -/
def parse_connectors (rs : List RawConn) : Option (List ConnData) :=
  rs.mapM parse_connector

/-- Backslash-to-forward-slash normalization of find_file_in_zip (line 25). -/
def slashify (c : Char) : Char := if c = '\\' then '/' else c

/-- Models os.path.basename on a forward-slash path. -/
def basenameL (s : Str) : Str := (s.reverse.takeWhile (fun c => c != '/')).reverse

/-- First of the preferred list, else first candidate, else first fallback;
none models the raised KeyError. -/
def pickCandidate (candidates best fallback : List Str) : Option Str :=
  match best with
  | b :: _ => some b
  | [] =>
    match candidates with
    | c :: _ => some c
    | [] => fallback.head?

/-- find_file_in_zip (lines 19-39): none models the raised
KeyError/ValueError. -/
def find_file_in_zip (names : List Str) (partial_name : Str) : Option Str :=
  if partial_name = [] then
    (names.filter (fun f => (".svg".data).isSuffixOf f && hasSub ("pcb".data) (lowerL f))).head?
  else
    pickCandidate
      (names.filter (fun f => (basenameL (partial_name.map slashify)).isSuffixOf f))
      (if 1 < (names.filter (fun f => (basenameL (partial_name.map slashify)).isSuffixOf f)).length
          ∧ hasSub ("pcb".data) (basenameL (partial_name.map slashify)) = true
          ∧ hasSub ("pcb".data) partial_name = true then
        (names.filter (fun f => (basenameL (partial_name.map slashify)).isSuffixOf f)).filter
          (fun c => hasSub ("pcb".data) (lowerL c) && !hasSub ("schematic".data) (lowerL c))
      else [])
      (names.filter (fun f => hasSub ("pcb".data) (lowerL f) && (".svg".data).isSuffixOf f))

/-- Shape classes delivered by the vector-graphics collaborator
(svgelements Circle, Rect, Path, anything else). -/
inductive ShapeKind where
  | circle | rect | path | other
deriving DecidableEq

/-- An axis-aligned bounding box (x0, y0, x1, y1) as returned by bbox(). -/
structure Box where
  x0 : ℚ
  y0 : ℚ
  x1 : ℚ
  y1 : ℚ
deriving DecidableEq

mutual
/-- A node of the parsed drawing: a typed shape with optional identifier,
optional bounding box and sampled boundary points, or a group of children. -/
inductive Element where
  | shape : ShapeKind → Option Str → Option Box → List (ℚ × ℚ) → Element
  | group : Option Str → ElementList → Element
/-- Children of a group. -/
inductive ElementList where
  | enil : ElementList
  | econs : Element → ElementList → ElementList
end

/-- The set comprehension of calculate_scale_from_pitch (line 112): the truthy
svg ids of the connector table. -/
def connIds (cs : List ConnData) : List Str :=
  cs.filterMap (fun c =>
    match c.svg_id with
    | some s => if s = [] then none else some s
    | none => none)

mutual
/-- find_centroids (lines 115-125): descend into groups; for a shape whose id
is a connector svg id and whose bounding box exists, collect the vertical
center of the box. -/
def collectYEl (ids : List Str) : Element → List ℚ
  | .shape _ oid obb _ =>
    match oid with
    | none => []
    | some s =>
      if s ∈ ids then
        match obb with
        | some bb => [(bb.y0 + bb.y1) / 2]
        | none => []
      else []
  | .group _ ch => collectYList ids ch
/-- find_centroids over the children of a group. -/
def collectYList (ids : List Str) : ElementList → List ℚ
  | .enil => []
  | .econs e rest => collectYEl ids e ++ collectYList ids rest
end

/-- The centroid collection over the document's top level elements. -/
def collectY (svg : List Element) (cs : List ConnData) : List ℚ :=
  (svg.map (collectYEl (connIds cs))).flatten

/-- Consecutive differences of a list (lines 135-139 before the filter). -/
def diffs : List ℚ → List ℚ
  | a :: b :: rest => (b - a) :: diffs (b :: rest)
  | _ => []

/-- Floor of a rational, computable. -/
def ratFloor (q : ℚ) : ℤ := Int.fdiv q.num q.den

/-- Round half to even to the nearest integer, models Python round(x). -/
def roundHalfEven (q : ℚ) : ℤ :=
  let f := ratFloor q
  let r := q - (f : ℚ)
  if r < 1/2 then f
  else if (1 : ℚ)/2 < r then f + 1
  else if f % 2 = 0 then f else f + 1

/-- Models round(d, 1): one decimal place, half to even. -/
def round1 (q : ℚ) : ℚ := (roundHalfEven (q * 10) : ℚ) / 10

/-- statistics.mode for Python 3.8 and later: the most frequent value, the
earliest first occurrence winning ties. -/
def pyMode (l : List ℚ) : ℚ :=
  match l with
  | [] => 0
  | x :: _ => l.foldl (fun best a => if l.count best < l.count a then a else best) x

/-- calculate_scale_from_pitch (lines 109-153). The argument is the result of
parsing the drawing; none models a parse exception, which the function catches,
as every other failure, by returning the fallback 0.0254. -/
def calculate_scale_from_pitch (parsed : Option (List Element)) (cs : List ConnData) : ℚ :=
  match parsed with
  | none => 0.0254
  | some svg =>
    if (collectY svg cs).length < 2 then 0.0254
    else
      match (diffs (List.insertionSort (· ≤ ·) (collectY svg cs))).filter
          (fun d => decide ((1 : ℚ)/10 < d)) with
      | [] => 0.0254
      | d :: ds => 2.54 / pyMode ((d :: ds).map round1)

/-- Spec side pipeline: sort the centers ascending, take consecutive
differences, discard those at most 0.1. -/
def specSurvivors (svg : List Element) (cs : List ConnData) : List ℚ :=
  (diffs (List.insertionSort (· ≤ ·) (collectY svg cs))).filter
    (fun d => decide ((1 : ℚ)/10 < d))

/-- A drawing with two matched circles whose vertical centers are 10 drawing
units apart. -/
def twoPinSvg : List Element :=
  [.shape .circle (some ("p1".data)) (some ⟨0, -1, 2, 1⟩) [],
   .shape .circle (some ("p2".data)) (some ⟨0, 9, 2, 11⟩) []]

/-- The connector table of the 2-pin scenario. -/
def twoPinConns : List ConnData :=
  [⟨"connector0".data, "pin1".data, "1".data, some ("p1".data), true⟩,
   ⟨"connector1".data, "pin2".data, "2".data, some ("p2".data), true⟩]

/-- A drawing whose two matched shapes have the same center, so every
consecutive difference is discarded. -/
def dupSvg : List Element :=
  [.shape .rect (some ("d1".data)) (some ⟨0, 0, 2, 2⟩) [],
   .shape .rect (some ("d2".data)) (some ⟨0, 0, 2, 2⟩) []]

/-- The connector table of the duplicate-center drawing. -/
def dupConns : List ConnData :=
  [⟨"connector0".data, "pin1".data, "1".data, some ("d1".data), true⟩,
   ⟨"connector1".data, "pin2".data, "2".data, some ("d2".data), true⟩]

/-- Pad mounting kind. -/
inductive PadType where
  | thru_hole | smd
deriving DecidableEq

/-- Emitted pad shape. -/
inductive PadShape where
  | circle | rect | custom
deriving DecidableEq

/-- One emitted pad record. -/
structure Pad where
  pin : Str
  ptype : PadType
  pshape : PadShape
  px : ℚ
  py : ℚ
  w : ℚ
  h : ℚ
  drill : ℚ
  pts : List (ℚ × ℚ)
deriving DecidableEq

/-- Python truthy-or on optional strings: empty strings count as absent
(used for id inheritance, lines 175 and 178). -/
def orTruthy (a b : Option Str) : Option Str :=
  match a with
  | some s => if s = [] then b else some s
  | none => b

/-- conn_map lookup (line 169): the dict comprehension keeps the last connector
for each truthy svg id. -/
def connFor (cs : List ConnData) (s : Str) : Option ConnData :=
  if s = [] then none
  else (cs.filter (fun c => c.svg_id == some s)).getLast?

/-- Pad construction for one matched shape (generate_footprint lines 186-223):
center and size from the bounding box scaled into millimeters, pad kind from
the connector's layers, shape and drill from the drawing primitive class. -/
def mkPad (scale : ℚ) (k : ShapeKind) (bb : Box) (pts0 : List (ℚ × ℚ))
    (data : ConnData) : Pad :=
  let cx := (bb.x0 + bb.x1) / 2 * scale
  let cy := (bb.y0 + bb.y1) / 2 * scale
  let w := (bb.x1 - bb.x0) * scale
  let h := (bb.y1 - bb.y0) * scale
  let pt := if data.is_tht then PadType.thru_hole else PadType.smd
  match k with
  | .circle =>
    ⟨data.pin, pt, .circle, cx, cy, w, h,
      if data.is_tht then max 0.6 (min w h * 0.65) else 0, []⟩
  | .rect =>
    ⟨data.pin, pt, .rect, cx, cy, w, h,
      if data.is_tht then min w h * 0.6 else 0, []⟩
  | .path =>
    ⟨data.pin, pt, .custom, cx, cy, w, h, 0,
      pts0.map (fun p => (p.1 * scale, p.2 * scale))⟩
  | .other =>
    ⟨data.pin, pt, .rect, cx, cy, w, h, 0, []⟩

mutual
/-- process_element (lines 172-226): groups propagate an identifier to
children, the inherited identifier of the outermost named ancestor taking
precedence; a shape resolves its own id first, then the inherited one, and
becomes a pad when it matches a connector and has a bounding box. -/
def processEl (cs : List ConnData) (scale : ℚ) : Option Str → Element → List Pad
  | inh, .group gid ch => processList cs scale (orTruthy inh gid) ch
  | inh, .shape k oid obb pts =>
    match orTruthy oid inh with
    | none => []
    | some s =>
      match connFor cs s with
      | none => []
      | some data =>
        match obb with
        | none => []
        | some bb => [mkPad scale k bb pts data]
/-- process_element over the children of a group. -/
def processList (cs : List ConnData) (scale : ℚ) : Option Str → ElementList → List Pad
  | _, .enil => []
  | inh, .econs e rest => processEl cs scale inh e ++ processList cs scale inh rest
end

/-- All pads of the drawing, in traversal order. -/
def padsOf (svg : List Element) (cs : List ConnData) (scale : ℚ) : List Pad :=
  (svg.map (processEl cs scale none)).flatten

/-- Minimum of a list of rationals, the first element seeding the fold (the
source seeds with infinity; with at least one element the results agree). -/
def listMin : List ℚ → ℚ
  | [] => 0
  | x :: xs => xs.foldl min x

/-- Maximum of a list of rationals, the first element seeding the fold. -/
def listMax : List ℚ → ℚ
  | [] => 0
  | x :: xs => xs.foldl max x

/-- Centering of generate_footprint (lines 232-244): subtract the midpoint of
the tracked envelope of pad centers from every pad position. -/
def centerPads (pads : List Pad) : List Pad :=
  pads.map (fun p =>
    { p with
      px := p.px - (listMin (pads.map Pad.px) + listMax (pads.map Pad.px)) / 2,
      py := p.py - (listMin (pads.map Pad.py) + listMax (pads.map Pad.py)) / 2 })

/-- generate_footprint after the drawing was resolved: calibrate, build pads,
skip with a warning when none matched, else emit the centered pads. -/
def generate_footprint_pads (svg : List Element) (cs : List ConnData) : Option (List Pad) :=
  match padsOf svg cs (calculate_scale_from_pitch (some svg) cs) with
  | [] => none
  | p :: ps => some (centerPads (p :: ps))

/-- Claim side: the center of the union of the emitted pad bounding boxes. -/
def unionBoxCenter (pads : List Pad) : ℚ × ℚ :=
  ((listMin (pads.map (fun p => p.px - p.w / 2))
      + listMax (pads.map (fun p => p.px + p.w / 2))) / 2,
   (listMin (pads.map (fun p => p.py - p.h / 2))
      + listMax (pads.map (fun p => p.py + p.h / 2))) / 2)

/-- A matched through-hole path shape. -/
def pathThtSvg : List Element :=
  [.shape .path (some ("q1".data)) (some ⟨0, 0, 10, 10⟩) []]

/-- The connector of the through-hole path shape. -/
def pathThtConns : List ConnData :=
  [⟨"connector0".data, "pin1".data, "1".data, some ("q1".data), true⟩]

/-- A drawing with one matched surface-mount rectangle. -/
def onePadSvg : List Element :=
  [.shape .rect (some ("w1".data)) (some ⟨0, 0, 10, 10⟩) []]

/-- The connector table of the one-pad drawing. -/
def onePadConns : List ConnData :=
  [⟨"connector0".data, "pin1".data, "1".data, some ("w1".data), false⟩]

/-- The single emitted pad of the one-pad drawing, after centering. -/
def wPad : Pad := ⟨"1".data, .smd, .rect, 0, 0, 127/500, 127/500, 0, []⟩

/-- Two surface-mount pads of different sizes at the envelope extremes. -/
def offSvg : List Element :=
  [.shape .rect (some ("e1".data)) (some ⟨0, 0, 1, 1⟩) [],
   .shape .rect (some ("e2".data)) (some ⟨9, 0, 11, 4⟩) []]

/-- The connector table of the two-pad drawing. -/
def offConns : List ConnData :=
  [⟨"connector0".data, "pin1".data, "1".data, some ("e1".data), false⟩,
   ⟨"connector1".data, "pin2".data, "2".data, some ("e2".data), false⟩]

/-- Which side of the symbol body a pin is placed on. -/
inductive PinSide where
  | left | right
deriving DecidableEq

/-- One emitted symbol pin record. -/
structure SymPin where
  side : PinSide
  x : ℚ
  y : ℚ
  angle : ℕ
  pname : Str
  pnum : Str
deriving DecidableEq

/-- Boolean test for a left-side pin. -/
def isLeftPin (p : SymPin) : Bool :=
  match p.side with
  | .left => true
  | .right => false

/-- Boolean test for a right-side pin. -/
def isRightPin (p : SymPin) : Bool :=
  match p.side with
  | .left => false
  | .right => true

/-- max(len(name)) over the connector table, 5 when the table is empty
(generate_symbol line 265). -/
def maxNameLen (cs : List ConnData) : ℕ :=
  match cs with
  | [] => 5
  | c :: rest => rest.foldl (fun a x => max a x.name.length) c.name.length

/-- The pin loop of generate_symbol (lines 280-300): connectors with index
below half go to the left side at angle 0, the rest to the right side at
angle 180, each side stacked downward in steps of 2.54. -/
def symPinsAux (half : ℕ) (width height : ℚ) : ℕ → List ConnData → List SymPin
  | _, [] => []
  | i, c :: rest =>
    (if i < half then
      ⟨.left, -width/2 - 2.54, (height/2 - 1.27) - (i : ℚ) * 2.54, 0, c.name, c.pin⟩
    else
      ⟨.right, width/2 + 2.54, (height/2 - 1.27) - ((i - half : ℕ) : ℚ) * 2.54, 180,
        c.name, c.pin⟩)
    :: symPinsAux half width height (i + 1) rest

/-- generate_symbol (lines 260-305), reduced to the emitted pin records. -/
def generate_symbol_pins (cs : List ConnData) : List SymPin :=
  symPinsAux ((cs.length + 1) / 2)
    (max 15.24 ((maxNameLen cs : ℚ) * 1.5))
    (max ((((cs.length + 1) / 2 : ℕ) : ℚ) * 2.54) 5.08 + 2.54)
    0 cs

/-- First connector of a concrete 3-connector table. -/
def demoConnA : ConnData := ⟨"connector0".data, "A".data, "1".data, none, false⟩

/-- Second connector of the 3-connector table. -/
def demoConnB : ConnData := ⟨"connector1".data, "B".data, "2".data, none, false⟩

/-- Third connector of the 3-connector table. -/
def demoConnC : ConnData := ⟨"connector2".data, "C".data, "3".data, none, false⟩

/-- A concrete 3-connector table in established pin order. -/
def demo3Conns : List ConnData := [demoConnA, demoConnB, demoConnC]

/-- generate_footprint (lines 155-258) as produced data: resolve the drawing
in the archive, read it, then calibrate and emit pads; resolution failure is
caught and skips the footprint. -/
def generate_footprint_model (entries : List (Str × List Element)) (hint : Option Str)
    (cs : List ConnData) : Option (List Pad) :=
  match find_file_in_zip (entries.map Prod.fst) (hint.getD []) with
  | none => none
  | some path =>
    match (entries.filter (fun e => e.1 == path)).head? with
    | none => none
    | some e => generate_footprint_pads e.2 cs

/-- process (lines 307-331) as produced data: the footprint output, when any,
and the symbol pin records, always. -/
def process_model (entries : List (Str × List Element)) (hint : Option Str)
    (cs : List ConnData) : Option (List Pad) × List SymPin :=
  (generate_footprint_model entries hint cs, generate_symbol_pins cs)

lemma digitChar_isPyDigit {d : ℕ} (h : d < 10) : isPyDigit (digitChar d) = true := by
  interval_cases d <;> decide

lemma digitChar_toNat {d : ℕ} (h : d < 10) : (digitChar d).toNat - 48 = d := by
  interval_cases d <;> decide

lemma natReprAux_mem_digit : ∀ f n, n < f → ∀ c ∈ natReprAux f n, isPyDigit c = true := by
  intro f
  induction f with
  | zero => intro n h; omega
  | succ f ih =>
    intro n hn c hc
    by_cases h10 : n < 10
    · simp only [natReprAux, if_pos h10, List.mem_singleton] at hc
      subst hc
      exact digitChar_isPyDigit h10
    · simp only [natReprAux, if_neg h10, List.mem_append, List.mem_singleton] at hc
      rcases hc with hc | hc
      · exact ih (n / 10) (by omega) c hc
      · subst hc
        exact digitChar_isPyDigit (by omega)

lemma natReprAux_ne_nil : ∀ f n, n < f → natReprAux f n ≠ [] := by
  intro f n hn
  cases f with
  | zero => omega
  | succ f =>
    by_cases h10 : n < 10 <;> simp [natReprAux, h10]

lemma natReprAux_foldl : ∀ f n, n < f → (natReprAux f n).foldl digStep 0 = n := by
  intro f
  induction f with
  | zero => intro n h; omega
  | succ f ih =>
    intro n hn
    by_cases h10 : n < 10
    · simp only [natReprAux, if_pos h10, List.foldl_cons, List.foldl_nil, digStep]
      rw [digitChar_toNat h10]
      omega
    · rw [natReprAux, if_neg h10, List.foldl_append, ih (n / 10) (by omega)]
      simp only [List.foldl_cons, List.foldl_nil, digStep]
      rw [digitChar_toNat (by omega : n % 10 < 10)]
      omega

lemma parseDigitsAux_all_digits :
    ∀ (l : Str) (acc : ℕ), (∀ c ∈ l, isPyDigit c = true) →
      parseDigitsAux acc l = some (l.foldl digStep acc) := by
  intro l
  induction l with
  | nil => intro acc _; rfl
  | cons c rest ih =>
    intro acc h
    have hc : isPyDigit c = true := h c (List.mem_cons_self c rest)
    rw [parseDigitsAux.eq_def]
    simp only [hc, if_true, List.foldl_cons]
    exact ih (digStep acc c) (fun x hx => h x (List.mem_cons_of_mem c hx))

lemma natPart_of_digits (l : Str) (hne : l ≠ []) (h : ∀ c ∈ l, isPyDigit c = true) :
    natPart l = some (l.foldl digStep 0) := by
  cases l with
  | nil => exact absurd rfl hne
  | cons c rest =>
    have hc : isPyDigit c = true := h c (List.mem_cons_self c rest)
    simp only [natPart, hc, if_true, List.foldl_cons]
    exact parseDigitsAux_all_digits rest (digStep 0 c) (fun x hx => h x (List.mem_cons_of_mem c hx))

lemma isPyDigit_not_space {c : Char} (h : isPyDigit c = true) : isPySpace c = false := by
  by_contra hs
  have hs' : isPySpace c = true := by
    cases hx : isPySpace c
    · exact absurd hx hs
    · rfl
  simp only [isPySpace, Bool.or_eq_true, beq_iff_eq] at hs'
  rcases hs' with ((((h1 | h1) | h1) | h1) | h1) | h1 <;> subst h1 <;> revert h <;> decide

lemma dropWhile_isPySpace_of_digits (l : Str) (h : ∀ c ∈ l, isPyDigit c = true) :
    l.dropWhile isPySpace = l := by
  cases l with
  | nil => rfl
  | cons c rest =>
    rw [List.dropWhile_cons, if_neg]
    rw [isPyDigit_not_space (h c (List.mem_cons_self c rest))]
    simp

lemma stripWS_of_digits (l : Str) (h : ∀ c ∈ l, isPyDigit c = true) : stripWS l = l := by
  unfold stripWS
  rw [dropWhile_isPySpace_of_digits l h,
    dropWhile_isPySpace_of_digits l.reverse (fun c hc => h c (List.mem_reverse.mp hc)),
    List.reverse_reverse]

lemma pyInt_natRepr (n : ℕ) : pyInt (natRepr n) = some (n : ℤ) := by
  have hd : ∀ c ∈ natRepr n, isPyDigit c = true := natReprAux_mem_digit (n + 1) n (by omega)
  have hne : natRepr n ≠ [] := natReprAux_ne_nil (n + 1) n (by omega)
  unfold pyInt
  rw [stripWS_of_digits _ hd]
  obtain ⟨c, rest, hcr⟩ := List.exists_cons_of_ne_nil hne
  have hc : isPyDigit c = true := hd c (by rw [hcr]; exact List.mem_cons_self c rest)
  have hplus : ¬ (c = '+') := by intro h; subst h; revert hc; decide
  have hminus : ¬ (c = '-') := by intro h; subst h; revert hc; decide
  rw [hcr]
  simp only [pyIntCore, if_neg hplus, if_neg hminus]
  rw [natPart_of_digits (c :: rest) (by simp) (hcr ▸ hd)]
  have hval : (c :: rest).foldl digStep 0 = n := by
    rw [← hcr]; exact natReprAux_foldl (n + 1) n (by omega)
  rw [hval]
  rfl

lemma replaceAllAux_no_occ :
    ∀ (f : ℕ) (l pat rep : Str), hasSub pat l = false → replaceAllAux pat rep f l = l := by
  intro f
  induction f with
  | zero => intro l pat rep _; cases l <;> rfl
  | succ f ih =>
    intro l pat rep h
    cases l with
    | nil => rfl
    | cons c rest =>
      simp only [hasSub, Bool.or_eq_false_iff] at h
      rw [replaceAllAux, if_neg, ih rest pat rep h.2]
      rw [h.1]
      simp

lemma replaceAll_no_occ (pat rep l : Str) (h : hasSub pat l = false) :
    replaceAll pat rep l = l :=
  replaceAllAux_no_occ l.length l pat rep h

lemma isPrefixOf_append (l t : Str) : l.isPrefixOf (l ++ t) = true := by
  have h : l <+: l ++ t := List.prefix_append l t
  simp [List.isPrefixOf_iff_prefix, h]

lemma replaceAllAux_cons_match (pat rep : Str) (hne : pat ≠ []) (rest : Str) (f : ℕ) :
    replaceAllAux pat rep (f + 1) (pat ++ rest) = rep ++ replaceAllAux pat rep f rest := by
  obtain ⟨p, ps, hp⟩ := List.exists_cons_of_ne_nil hne
  rw [hp]
  show replaceAllAux (p :: ps) rep (f + 1) ((p :: ps) ++ rest) = _
  have hcons : (p :: ps) ++ rest = p :: (ps ++ rest) := rfl
  rw [hcons, replaceAllAux, if_pos, ← hcons, List.drop_left]
  rw [← hcons, isPrefixOf_append]
  simp

lemma hasSub_connector_digits (l : Str) (h : ∀ c ∈ l, isPyDigit c = true) :
    hasSub ("connector".data) l = false := by
  induction l with
  | nil => decide
  | cons c rest ih =>
    have hc : isPyDigit c = true := h c (List.mem_cons_self c rest)
    have hne : ¬ ('c' = c) := by
      intro hcc; rw [← hcc] at hc; revert hc; decide
    simp only [hasSub, Bool.or_eq_false_iff]
    constructor
    · have hb : ('c' == c) = false := by
        rw [beq_eq_false_iff_ne]; exact hne
      show (('c' :: "onnector".data).isPrefixOf (c :: rest)) = false
      rw [List.isPrefixOf_cons₂, hb]
      simp
    · exact ih (fun x hx => h x (List.mem_cons_of_mem c hx))

lemma natRepr_digits (n : ℕ) : ∀ c ∈ natRepr n, isPyDigit c = true :=
  natReprAux_mem_digit (n + 1) n (by omega)

lemma replaceAll_connector_append (ds : Str) (h : ∀ c ∈ ds, isPyDigit c = true) :
    replaceAll ("connector".data) [] ("connector".data ++ ds) = ds := by
  unfold replaceAll
  have h9 : ("connector".data).length = 9 := by decide
  have hlen : ("connector".data ++ ds).length = ds.length + 8 + 1 := by
    rw [List.length_append, h9]; omega
  rw [hlen, replaceAllAux_cons_match _ _ (by decide) _ _,
    replaceAllAux_no_occ _ _ _ _ (hasSub_connector_digits ds h), List.nil_append]

/-- C3 (amended): an id of the form connector followed by the decimal digits of
N gets pin number str(N + 1); an id not starting with "connector", or one where
removing every occurrence of "connector" leaves a string that int() rejects, is
kept unchanged; and whenever the remainder parses as the integer n the pin
number is str(n + 1). -/
theorem pin_number_amended :
    (∀ N : ℕ, pin_num_of ("connector".data ++ natRepr N) = natRepr (N + 1))
    ∧ (∀ cid : Str, ("connector".data).isPrefixOf cid = false → pin_num_of cid = cid)
    ∧ (∀ cid : Str, ("connector".data).isPrefixOf cid = true →
        pyInt (replaceAll ("connector".data) [] cid) = none → pin_num_of cid = cid)
    ∧ (∀ (cid : Str) (n : ℤ), ("connector".data).isPrefixOf cid = true →
        pyInt (replaceAll ("connector".data) [] cid) = some n →
        pin_num_of cid = intRepr (n + 1)) := by
  refine ⟨?_, ?_, ?_, ?_⟩
  · intro N
    unfold pin_num_of
    rw [if_pos (isPrefixOf_append _ _), replaceAll_connector_append _ (natRepr_digits N),
      pyInt_natRepr N]
    show intRepr ((N : ℤ) + 1) = natRepr (N + 1)
    have hcast : ((N : ℤ) + 1) = ((N + 1 : ℕ) : ℤ) := by push_cast; ring
    rw [hcast]
    unfold intRepr
    rw [if_neg (by omega), (by omega : ((N + 1 : ℕ) : ℤ).toNat = N + 1)]
  · intro cid h
    unfold pin_num_of
    rw [if_neg]
    rw [h]
    simp
  · intro cid h hnone
    unfold pin_num_of
    rw [if_pos h, hnone]
  · intro cid n h hsome
    unfold pin_num_of
    rw [if_pos h, hsome]

/-- Witness for pin_number_amended: connector3 has pin number "4", and an id
not starting with "connector" stays unchanged. -/
theorem pin_number_amended_witness :
    pin_num_of ("connector3".data) = "4".data
    ∧ ("connector".data).isPrefixOf ("pin1".data) = false
    ∧ pin_num_of ("pin1".data) = "pin1".data := by
  refine ⟨?_, by decide, pin_number_amended.2.1 ("pin1".data) (by decide)⟩
  have e1 : ("connector3".data) = "connector".data ++ natRepr 3 := by decide
  rw [e1, pin_number_amended.1 3]
  decide

/-- C3 counterexample: the id "connector-1" is not of the form connector N with
N a natural number, so by the claim its pin number should be the id unchanged;
the code however stores str(int("-1") + 1) = "0". -/
theorem pin_number_signed_cex :
    pin_num_of ("connector-1".data) = "0".data
    ∧ "0".data ≠ "connector-1".data := by decide

/-- C10: a connector element with no name attribute and no description whose
text strips to something non-empty makes parse_metadata raise (the claim's
case, neither name attribute nor non-empty description, is included), and the
exception aborts the whole extraction. -/
theorem parse_metadata_name_crash (r : RawConn) (hn : r.name_attr = none)
    (hd : ∀ t, r.desc_text = some t → t = [] ∨ stripWS t = []) :
    parse_connector r = none
    ∧ ∀ rs : List RawConn, r ∈ rs → parse_connectors rs = none := by
  have hname : connector_name r.name_attr r.desc_text r.cid = none := by
    rcases hdt : r.desc_text with _ | t
    · simp [connector_name, hn, hdt]
    · have hcond : ¬ (t ≠ [] ∧ stripWS t ≠ []) := by
        rcases hd t hdt with h | h
        · intro hc; exact hc.1 h
        · intro hc; exact hc.2 h
      simp [connector_name, hn, hdt, hcond]
  have hpc : parse_connector r = none := by
    unfold parse_connector
    rw [hname]
  refine ⟨hpc, ?_⟩
  intro rs hmem
  unfold parse_connectors
  induction rs with
  | nil => cases hmem
  | cons x rest ih =>
    rcases List.mem_cons.mp hmem with hx | hx
    · subst hx
      rw [List.mapM_cons, hpc]
      rfl
    · rw [List.mapM_cons]
      rcases hpx : parse_connector x with _ | v
      · rfl
      · rw [ih hx]
        rfl

/-- Witness for parse_metadata_name_crash at a concrete connector. -/
theorem parse_metadata_name_crash_witness :
    parse_connector ⟨"connector0".data, none, none, []⟩ = none
    ∧ parse_connectors [⟨"connector0".data, none, none, []⟩] = none := by
  have h := parse_metadata_name_crash ⟨"connector0".data, none, none, []⟩ rfl
    (fun t ht => by cases ht)
  exact ⟨h.1, h.2 _ (List.mem_cons_self _ _)⟩

/-- C8 counterexample: the description "A " is non-empty, so by the claim the
stored name should be the description text "A " itself; the code stores the
stripped text "A". -/
theorem name_strip_cex :
    connector_name (some ("N".data)) (some ("A ".data)) ("c1".data) = some ("A".data)
    ∧ some ("A".data) ≠ some ("A ".data) := by decide

/-- C8 (amended): the stored name is the stripped description text when the
description is present with text stripping to non-empty, else the raw name
attribute; then a name of more than 15 characters is cut to its exact
15-character prefix, and a resulting name equal to "passive" case-insensitively
is replaced by the raw id; a connector named "Passive" with id connector3 is
stored as "connector3" with pin number "4". -/
theorem name_rules_amended :
    (∀ (na : Option Str) (t cid : Str), t ≠ [] → stripWS t ≠ [] →
        connector_name na (some t) cid = some (nameFinish (stripWS t) cid))
    ∧ (∀ (nm cid : Str) (d : Option Str), (∀ t, d = some t → t = [] ∨ stripWS t = []) →
        connector_name (some nm) d cid = some (nameFinish nm cid))
    ∧ (∀ (b cid : Str), b.length ≤ 15 → lowerL b ≠ "passive".data → nameFinish b cid = b)
    ∧ (∀ (b cid : Str), 15 < b.length → lowerL (b.take 15) ≠ "passive".data →
        (nameFinish b cid).length = 15 ∧ nameFinish b cid <+: b)
    ∧ (∀ (b cid : Str), lowerL (truncate15 b) = "passive".data → nameFinish b cid = cid)
    ∧ (connector_name (some ("Passive".data)) none ("connector3".data)
        = some ("connector3".data)
      ∧ pin_num_of ("connector3".data) = "4".data) := by
  refine ⟨?_, ?_, ?_, ?_, ?_, by decide⟩
  · intro na t cid h1 h2
    simp [connector_name, h1, h2]
  · intro nm cid d hd
    rcases hdt : d with _ | t
    · simp [connector_name]
    · have hcond : ¬ (t ≠ [] ∧ stripWS t ≠ []) := by
        rcases hd t hdt with h | h
        · intro hc; exact hc.1 h
        · intro hc; exact hc.2 h
      simp [connector_name, hcond]
  · intro b cid hlen hpas
    have ht : truncate15 b = b := by
      unfold truncate15
      rw [if_neg (by omega : ¬ 15 < b.length)]
    unfold nameFinish
    rw [ht, if_neg hpas]
  · intro b cid hlen hpas
    have ht : truncate15 b = b.take 15 := by
      unfold truncate15
      rw [if_pos hlen]
    unfold nameFinish
    rw [ht, if_neg hpas]
    exact ⟨by rw [List.length_take]; omega, List.take_prefix 15 b⟩
  · intro b cid hpas
    unfold nameFinish
    rw [if_pos hpas]

/-- Witness for name_rules_amended at concrete connectors. -/
theorem name_rules_amended_witness :
    connector_name none (some ("GPIO ".data)) ("c0".data) = some ("GPIO".data)
    ∧ connector_name (some ("VCC".data)) none ("c0".data) = some ("VCC".data)
    ∧ nameFinish ("A0".data) ("c0".data) = "A0".data
    ∧ (nameFinish ("0123456789abcdefXYZ".data) ("c0".data)).length = 15
    ∧ nameFinish ("Passive".data) ("connector3".data) = "connector3".data := by
  refine ⟨?_, ?_, ?_, ?_, ?_⟩
  · rw [name_rules_amended.1 none ("GPIO ".data) ("c0".data) (by decide) (by decide)]
    decide
  · rw [name_rules_amended.2.1 ("VCC".data) ("c0".data) none (fun t ht => by cases ht)]
    decide
  · exact name_rules_amended.2.2.1 ("A0".data) ("c0".data) (by decide) (by decide)
  · exact (name_rules_amended.2.2.2.1 ("0123456789abcdefXYZ".data) ("c0".data)
      (by decide) (by decide)).1
  · exact name_rules_amended.2.2.2.2.1 ("Passive".data) ("connector3".data) (by decide)

lemma hasSub_iff_isInfix (pat : Str) : ∀ l : Str, hasSub pat l = true ↔ pat <:+: l := by
  intro l
  induction l with
  | nil => simp [hasSub]
  | cons c rest ih =>
    simp only [hasSub, Bool.or_eq_true, List.isPrefixOf_iff_prefix, ih,
      List.infix_cons_iff]

lemma hasSub_of_suffix {pat t l : Str} (h : hasSub pat t = true) (hs : t <:+ l) :
    hasSub pat l = true := by
  rw [hasSub_iff_isInfix] at h ⊢
  exact h.trans hs.isInfix

lemma basenameL_suffix (s : Str) : basenameL s <:+ s := by
  unfold basenameL
  have h : s.reverse.takeWhile (fun c => c != '/') <+: s.reverse :=
    List.takeWhile_prefix _
  have h2 := List.reverse_suffix.mpr h
  rwa [List.reverse_reverse] at h2

lemma isPrefixOf_map_slashify :
    ∀ pat : Str, (∀ c ∈ pat, c ≠ '/') →
      ∀ l : Str, pat.isPrefixOf (l.map slashify) = true → pat.isPrefixOf l = true := by
  intro pat
  induction pat with
  | nil => intro _ l _; simp
  | cons p ps ih =>
    intro hp l h
    cases l with
    | nil => simp at h
    | cons c rest =>
      rw [List.map_cons, List.isPrefixOf_cons₂, Bool.and_eq_true] at h
      obtain ⟨h1, h2⟩ := h
      have hpc : p = slashify c := by simpa [beq_iff_eq] using h1
      have hcc : p = c := by
        by_cases hb : c = '\\'
        · exfalso
          apply hp p (List.mem_cons_self p ps)
          subst hb
          simpa [slashify] using hpc
        · simpa [slashify, hb] using hpc
      rw [List.isPrefixOf_cons₂, Bool.and_eq_true]
      exact ⟨by simp [beq_iff_eq, hcc],
        ih (fun x hx => hp x (List.mem_cons_of_mem p hx)) rest h2⟩

lemma hasSub_map_slashify (pat : Str) (hp : ∀ c ∈ pat, c ≠ '/') :
    ∀ l : Str, hasSub pat (l.map slashify) = true → hasSub pat l = true := by
  intro l
  induction l with
  | nil => intro h; simpa using h
  | cons c rest ih =>
    intro h
    simp only [List.map_cons, hasSub, Bool.or_eq_true] at h ⊢
    rcases h with h | h
    · exact Or.inl (isPrefixOf_map_slashify pat hp (c :: rest) (by simpa using h))
    · exact Or.inr (ih h)

/-- C5: when the hint's base filename contains "pcb" and some suffix-matched
candidate's lowercased path contains "pcb" but not "schematic", the resolver
returns the first such candidate in archive order. -/
theorem resolver_prefers_non_schematic (names : List Str) (hint : Str) (hne : hint ≠ [])
    (hpcb : hasSub ("pcb".data) (basenameL (hint.map slashify)) = true)
    (hbest : (names.filter (fun f => (basenameL (hint.map slashify)).isSuffixOf f)).filter
        (fun c => hasSub ("pcb".data) (lowerL c) && !hasSub ("schematic".data) (lowerL c))
      ≠ []) :
    find_file_in_zip names hint =
      ((names.filter (fun f => (basenameL (hint.map slashify)).isSuffixOf f)).filter
        (fun c => hasSub ("pcb".data) (lowerL c) && !hasSub ("schematic".data) (lowerL c))).head? := by
  have hhint : hasSub ("pcb".data) hint = true := by
    have h1 : hasSub ("pcb".data) (hint.map slashify) = true :=
      hasSub_of_suffix hpcb (basenameL_suffix _)
    exact hasSub_map_slashify _ (by decide) hint h1
  unfold find_file_in_zip
  rw [if_neg hne]
  rcases hC : names.filter (fun f => (basenameL (hint.map slashify)).isSuffixOf f)
    with _ | ⟨c1, rest⟩
  · rw [hC] at hbest
    simp at hbest
  · rw [hC] at hbest
    rcases rest with _ | ⟨c2, rest2⟩
    · rw [if_neg (by simp)]
      rcases hP : (hasSub ("pcb".data) (lowerL c1) && !hasSub ("schematic".data) (lowerL c1))
        with _ | _
      · simp [List.filter_cons, hP] at hbest
      · simp [List.filter_cons, hP, pickCandidate]
    · rw [if_pos ⟨by simp, hpcb, hhint⟩]
      rcases hF : (c1 :: c2 :: rest2).filter
          (fun c => hasSub ("pcb".data) (lowerL c) && !hasSub ("schematic".data) (lowerL c))
        with _ | ⟨b, bs⟩
      · rw [hF] at hbest
        exact absurd rfl hbest
      · rfl

/-- Witness for resolver_prefers_non_schematic at the spec scenario: the entry
without "schematic" is selected. -/
theorem resolver_prefers_non_schematic_witness :
    find_file_in_zip ["assets/part_pcb.svg".data, "assets/part_schematic_pcb.svg".data]
      ("icons/part_pcb.svg".data) = some ("assets/part_pcb.svg".data) := by
  rw [resolver_prefers_non_schematic
    ["assets/part_pcb.svg".data, "assets/part_schematic_pcb.svg".data]
    ("icons/part_pcb.svg".data) (by decide) (by decide) (by decide)]
  decide

/-- C1: with at least 2 matched centers and a surviving consecutive difference,
the scale is 2.54 divided by the mode of the rounded surviving differences of
the ascending-sorted centers; the 2-pin scenario with spacing 10 returns
exactly 2.54/10 = 0.254. -/
theorem calibration_scale_pipeline :
    (∀ (svg : List Element) (cs : List ConnData),
      2 ≤ (collectY svg cs).length → specSurvivors svg cs ≠ [] →
      calculate_scale_from_pitch (some svg) cs
        = 2.54 / pyMode ((specSurvivors svg cs).map round1))
    ∧ calculate_scale_from_pitch (some twoPinSvg) twoPinConns = 0.254 := by
  constructor
  · intro svg cs h2 hne
    show (if (collectY svg cs).length < 2 then (0.0254 : ℚ)
      else
        match (diffs (List.insertionSort (· ≤ ·) (collectY svg cs))).filter
            (fun d => decide ((1 : ℚ)/10 < d)) with
        | [] => 0.0254
        | d :: ds => 2.54 / pyMode ((d :: ds).map round1)) = _
    rw [if_neg (by omega)]
    rcases hd : (diffs (List.insertionSort (· ≤ ·) (collectY svg cs))).filter
        (fun d => decide ((1 : ℚ)/10 < d)) with _ | ⟨d, ds⟩
    · unfold specSurvivors at hne
      rw [hd] at hne
      exact absurd rfl hne
    · unfold specSurvivors
      rw [hd]
  · decide

/-- Witness for calibration_scale_pipeline at the 2-pin scenario drawing. -/
theorem calibration_scale_pipeline_witness :
    2 ≤ (collectY twoPinSvg twoPinConns).length
    ∧ specSurvivors twoPinSvg twoPinConns ≠ []
    ∧ calculate_scale_from_pitch (some twoPinSvg) twoPinConns
        = 2.54 / pyMode ((specSurvivors twoPinSvg twoPinConns).map round1) :=
  ⟨by decide, by decide,
    calibration_scale_pipeline.1 twoPinSvg twoPinConns (by decide) (by decide)⟩

/-- C2: calibration is total and returns exactly 0.0254 when parsing fails,
when fewer than 2 matched centers are found, and when every consecutive
difference is discarded. -/
theorem calibration_fallback_total :
    (∀ cs, calculate_scale_from_pitch none cs = 0.0254)
    ∧ (∀ (svg : List Element) (cs : List ConnData), (collectY svg cs).length < 2 →
        calculate_scale_from_pitch (some svg) cs = 0.0254)
    ∧ (∀ (svg : List Element) (cs : List ConnData), specSurvivors svg cs = [] →
        calculate_scale_from_pitch (some svg) cs = 0.0254) := by
  refine ⟨fun cs => rfl, ?_, ?_⟩
  · intro svg cs h
    show (if (collectY svg cs).length < 2 then (0.0254 : ℚ) else _) = _
    rw [if_pos h]
  · intro svg cs h
    unfold specSurvivors at h
    show (if (collectY svg cs).length < 2 then (0.0254 : ℚ)
      else
        match (diffs (List.insertionSort (· ≤ ·) (collectY svg cs))).filter
            (fun d => decide ((1 : ℚ)/10 < d)) with
        | [] => 0.0254
        | d :: ds => 2.54 / pyMode ((d :: ds).map round1)) = _
    rw [h]
    split <;> rfl

/-- Witness for calibration_fallback_total: a parse failure, a single matched
center, and a drawing whose centers coincide. -/
theorem calibration_fallback_total_witness :
    calculate_scale_from_pitch none twoPinConns = 0.0254
    ∧ ((collectY twoPinSvg []).length < 2
      ∧ calculate_scale_from_pitch (some twoPinSvg) [] = 0.0254)
    ∧ (specSurvivors dupSvg dupConns = []
      ∧ calculate_scale_from_pitch (some dupSvg) dupConns = 0.0254) :=
  ⟨calibration_fallback_total.1 twoPinConns,
    ⟨by decide, calibration_fallback_total.2.1 twoPinSvg [] (by decide)⟩,
    ⟨by decide, calibration_fallback_total.2.2 dupSvg dupConns (by decide)⟩⟩

/-- C4 counterexample: a through-hole pad built from a path primitive is
emitted with drill diameter 0, not a positive value. -/
theorem drill_custom_tht_zero_cex :
    (generate_footprint_pads pathThtSvg pathThtConns).map
      (fun ps => ps.map (fun p => (p.ptype, p.drill)))
      = some [(PadType.thru_hole, 0)] := by decide

/-- C4 (amended): surface-mount pads have drill 0; through-hole pads have
drill max(0.6, 0.65 min(w, h)) for circle primitives, 0.6 min(w, h) with no
floor for rectangle primitives, and 0 for path and other primitives. -/
theorem drill_rules_amended (scale : ℚ) (k : ShapeKind) (bb : Box)
    (pts0 : List (ℚ × ℚ)) (data : ConnData) :
    (data.is_tht = false → (mkPad scale k bb pts0 data).drill = 0)
    ∧ (data.is_tht = true → k = .circle →
        (mkPad scale k bb pts0 data).drill
          = max 0.6 (0.65 * min (mkPad scale k bb pts0 data).w (mkPad scale k bb pts0 data).h))
    ∧ (data.is_tht = true → k = .rect →
        (mkPad scale k bb pts0 data).drill
          = 0.6 * min (mkPad scale k bb pts0 data).w (mkPad scale k bb pts0 data).h)
    ∧ (data.is_tht = true → (k = .path ∨ k = .other) →
        (mkPad scale k bb pts0 data).drill = 0) := by
  refine ⟨?_, ?_, ?_, ?_⟩
  · intro h
    cases k <;> simp [mkPad, h]
  · intro h hk
    subst hk
    simp [mkPad, h, mul_comm]
  · intro h hk
    subst hk
    simp [mkPad, h, mul_comm]
  · intro h hk
    rcases hk with hk | hk <;> subst hk <;> simp [mkPad, h]

/-- Witness for drill_rules_amended on a concrete circle pad. -/
theorem drill_rules_amended_witness :
    ((⟨"connector0".data, "pin1".data, "1".data, some ("q1".data), true⟩ : ConnData).is_tht
      = true)
    ∧ (mkPad 1 .circle ⟨0, 0, 1, 1⟩ []
        ⟨"connector0".data, "pin1".data, "1".data, some ("q1".data), true⟩).drill
      = max 0.6 (0.65 * min
          (mkPad 1 .circle ⟨0, 0, 1, 1⟩ []
            ⟨"connector0".data, "pin1".data, "1".data, some ("q1".data), true⟩).w
          (mkPad 1 .circle ⟨0, 0, 1, 1⟩ []
            ⟨"connector0".data, "pin1".data, "1".data, some ("q1".data), true⟩).h) :=
  ⟨rfl, (drill_rules_amended 1 .circle ⟨0, 0, 1, 1⟩ []
    ⟨"connector0".data, "pin1".data, "1".data, some ("q1".data), true⟩).2.1 rfl rfl⟩

lemma foldl_min_sub (m : ℚ) : ∀ (l : List ℚ) (a : ℚ),
    (l.map (fun x => x - m)).foldl min (a - m) = l.foldl min a - m := by
  intro l
  induction l with
  | nil => intro a; rfl
  | cons x xs ih =>
    intro a
    simp only [List.map_cons, List.foldl_cons]
    rw [min_sub_sub_right, ih]

lemma foldl_max_sub (m : ℚ) : ∀ (l : List ℚ) (a : ℚ),
    (l.map (fun x => x - m)).foldl max (a - m) = l.foldl max a - m := by
  intro l
  induction l with
  | nil => intro a; rfl
  | cons x xs ih =>
    intro a
    simp only [List.map_cons, List.foldl_cons]
    rw [max_sub_sub_right, ih]

lemma listMin_map_sub (l : List ℚ) (hne : l ≠ []) (m : ℚ) :
    listMin (l.map (fun x => x - m)) = listMin l - m := by
  cases l with
  | nil => exact absurd rfl hne
  | cons x xs =>
    simp only [List.map_cons, listMin]
    exact foldl_min_sub m xs x

lemma listMax_map_sub (l : List ℚ) (hne : l ≠ []) (m : ℚ) :
    listMax (l.map (fun x => x - m)) = listMax l - m := by
  cases l with
  | nil => exact absurd rfl hne
  | cons x xs =>
    simp only [List.map_cons, listMax]
    exact foldl_max_sub m xs x

lemma centerPads_px (pads : List Pad) :
    (centerPads pads).map Pad.px
      = (pads.map Pad.px).map
          (fun x => x - (listMin (pads.map Pad.px) + listMax (pads.map Pad.px)) / 2) := by
  unfold centerPads
  rw [List.map_map, List.map_map]
  rfl

lemma centerPads_py (pads : List Pad) :
    (centerPads pads).map Pad.py
      = (pads.map Pad.py).map
          (fun x => x - (listMin (pads.map Pad.py) + listMax (pads.map Pad.py)) / 2) := by
  unfold centerPads
  rw [List.map_map, List.map_map]
  rfl

/-- C6 (amended): for every emitted footprint, the tracked envelope of the
emitted pad centers has midpoint exactly (0, 0) after centering. -/
theorem centered_envelope_midpoint (svg : List Element) (cs : List ConnData)
    (out : List Pad) (h : generate_footprint_pads svg cs = some out) :
    (listMin (out.map Pad.px) + listMax (out.map Pad.px)) / 2 = 0
    ∧ (listMin (out.map Pad.py) + listMax (out.map Pad.py)) / 2 = 0 := by
  unfold generate_footprint_pads at h
  rcases hp : padsOf svg cs (calculate_scale_from_pitch (some svg) cs) with _ | ⟨p, ps⟩
  · rw [hp] at h
    simp at h
  · rw [hp] at h
    simp only [Option.some.injEq] at h
    subst h
    constructor
    · rw [centerPads_px (p :: ps), listMin_map_sub _ (by simp) _,
        listMax_map_sub _ (by simp) _]
      ring
    · rw [centerPads_py (p :: ps), listMin_map_sub _ (by simp) _,
        listMax_map_sub _ (by simp) _]
      ring

/-- Witness for centered_envelope_midpoint at the one-pad drawing. -/
theorem centered_envelope_midpoint_witness :
    generate_footprint_pads onePadSvg onePadConns = some [wPad]
    ∧ ((listMin ([wPad].map Pad.px) + listMax ([wPad].map Pad.px)) / 2 = 0
      ∧ (listMin ([wPad].map Pad.py) + listMax ([wPad].map Pad.py)) / 2 = 0) :=
  ⟨by decide, centered_envelope_midpoint onePadSvg onePadConns [wPad] (by decide)⟩

/-- C6 counterexample: a footprint is emitted with two pads, yet the union of
the emitted pad bounding boxes does not have its center at the origin: only
the envelope of the pad centers is centered, pad extents are ignored. -/
theorem union_bbox_centroid_cex :
    (generate_footprint_pads offSvg offConns).isSome = true
    ∧ (generate_footprint_pads offSvg offConns).map unionBoxCenter ≠ some (0, 0) := by
  decide

lemma symPinsAux_length (half : ℕ) (w h : ℚ) :
    ∀ (cs : List ConnData) (i : ℕ), (symPinsAux half w h i cs).length = cs.length := by
  intro cs
  induction cs with
  | nil => intro i; rfl
  | cons c rest ih =>
    intro i
    simp only [symPinsAux, List.length_cons, ih]

lemma symPinsAux_countLeft_zero (half : ℕ) (w h : ℚ) :
    ∀ (cs : List ConnData) (i : ℕ), half ≤ i →
      (symPinsAux half w h i cs).countP isLeftPin = 0 := by
  intro cs
  induction cs with
  | nil => intro i _; rfl
  | cons c rest ih =>
    intro i hi
    rw [symPinsAux, if_neg (by omega)]
    rw [List.countP_cons_of_neg _ _ (by simp [isLeftPin])]
    exact ih (i + 1) (by omega)

lemma symPinsAux_countLeft (half : ℕ) (w h : ℚ) :
    ∀ (cs : List ConnData) (i : ℕ), i ≤ half →
      (symPinsAux half w h i cs).countP isLeftPin = min (half - i) cs.length := by
  intro cs
  induction cs with
  | nil => intro i _; simp [symPinsAux]
  | cons c rest ih =>
    intro i hi
    by_cases hlt : i < half
    · rw [symPinsAux, if_pos hlt]
      rw [List.countP_cons_of_pos _ _ (by simp [isLeftPin])]
      rw [ih (i + 1) (by omega)]
      simp only [List.length_cons]
      omega
    · have heq : i = half := by omega
      rw [symPinsAux, if_neg hlt]
      rw [List.countP_cons_of_neg _ _ (by simp [isLeftPin])]
      rw [symPinsAux_countLeft_zero half w h rest (i + 1) (by omega)]
      omega

lemma symPinsAux_count_split (half : ℕ) (w h : ℚ) :
    ∀ (cs : List ConnData) (i : ℕ),
      (symPinsAux half w h i cs).countP isLeftPin
        + (symPinsAux half w h i cs).countP isRightPin = cs.length := by
  intro cs
  induction cs with
  | nil => intro i; rfl
  | cons c rest ih =>
    intro i
    by_cases hlt : i < half
    · rw [symPinsAux, if_pos hlt,
        List.countP_cons_of_pos _ _ (by simp [isLeftPin]),
        List.countP_cons_of_neg _ _ (by simp [isRightPin])]
      have := ih (i + 1)
      simp only [List.length_cons]
      omega
    · rw [symPinsAux, if_neg hlt,
        List.countP_cons_of_neg _ _ (by simp [isLeftPin]),
        List.countP_cons_of_pos _ _ (by simp [isRightPin])]
      have := ih (i + 1)
      simp only [List.length_cons]
      omega

lemma symPinsAux_getElem (half : ℕ) (w h : ℚ) :
    ∀ (cs : List ConnData) (j i : ℕ) (c : ConnData), cs[i]? = some c →
      ((symPinsAux half w h j cs)[i]?).map (fun p => (p.side, p.pname, p.pnum))
        = some
          ((if j + i < half then PinSide.left else PinSide.right), c.name, c.pin) := by
  intro cs
  induction cs with
  | nil => intro j i c hc; simp at hc
  | cons c0 rest ih =>
    intro j i c hc
    cases i with
    | zero =>
      simp only [List.getElem?_cons_zero, Option.some.injEq] at hc
      subst hc
      by_cases hj : j < half
      · rw [symPinsAux, if_pos hj]
        simp [hj]
      · rw [symPinsAux, if_neg hj]
        simp [hj]
    | succ i =>
      simp only [List.getElem?_cons_succ] at hc
      rw [symPinsAux]
      by_cases hj : j < half
      · rw [if_pos hj]
        simp only [List.getElem?_cons_succ]
        have harith : j + 1 + i = j + (i + 1) := by omega
        rw [ih (j + 1) i c hc, harith]
      · rw [if_neg hj]
        simp only [List.getElem?_cons_succ]
        have harith : j + 1 + i = j + (i + 1) := by omega
        rw [ih (j + 1) i c hc, harith]

/-- C7: the symbol emitter produces exactly one pin record per connector, in
the established pin order: the record at index i carries the i-th connector's
name and pin number and is placed on the left side exactly when i is below
ceil(n/2), so the first ceil(n/2) connectors go left and the remaining
floor(n/2) go right. -/
theorem symbol_pin_split (cs : List ConnData) :
    (generate_symbol_pins cs).length = cs.length
    ∧ (generate_symbol_pins cs).countP isLeftPin = (cs.length + 1) / 2
    ∧ (generate_symbol_pins cs).countP isRightPin = cs.length / 2
    ∧ (∀ (i : ℕ) (c : ConnData), cs[i]? = some c →
        ((generate_symbol_pins cs)[i]?).map (fun p => (p.side, p.pname, p.pnum))
          = some
            ((if i < (cs.length + 1) / 2 then PinSide.left else PinSide.right),
              c.name, c.pin)) := by
  refine ⟨?_, ?_, ?_, ?_⟩
  · exact symPinsAux_length _ _ _ cs 0
  · rw [generate_symbol_pins, symPinsAux_countLeft _ _ _ cs 0 (by omega)]
    omega
  · have h1 := symPinsAux_count_split ((cs.length + 1) / 2)
      (max 15.24 ((maxNameLen cs : ℚ) * 1.5))
      (max ((((cs.length + 1) / 2 : ℕ) : ℚ) * 2.54) 5.08 + 2.54) cs 0
    have h2 := symPinsAux_countLeft ((cs.length + 1) / 2)
      (max 15.24 ((maxNameLen cs : ℚ) * 1.5))
      (max ((((cs.length + 1) / 2 : ℕ) : ℚ) * 2.54) 5.08 + 2.54) cs 0 (by omega)
    rw [generate_symbol_pins]
    omega
  · intro i c hc
    have h := symPinsAux_getElem ((cs.length + 1) / 2)
      (max 15.24 ((maxNameLen cs : ℚ) * 1.5))
      (max ((((cs.length + 1) / 2 : ℕ) : ℚ) * 2.54) 5.08 + 2.54) cs 0 i c hc
    rw [generate_symbol_pins]
    simpa using h

/-- Witness for symbol_pin_split at a concrete 3-connector table: three pin
records, the first two connectors on the left, the third on the right, names
and numbers in order. -/
theorem symbol_pin_split_witness :
    (generate_symbol_pins demo3Conns).length = 3
    ∧ ((generate_symbol_pins demo3Conns)[0]?).map (fun p => (p.side, p.pname, p.pnum))
        = some (PinSide.left, "A".data, "1".data)
    ∧ ((generate_symbol_pins demo3Conns)[1]?).map (fun p => (p.side, p.pname, p.pnum))
        = some (PinSide.left, "B".data, "2".data)
    ∧ ((generate_symbol_pins demo3Conns)[2]?).map (fun p => (p.side, p.pname, p.pnum))
        = some (PinSide.right, "C".data, "3".data) :=
  ⟨((symbol_pin_split demo3Conns).1).trans (by decide),
    ((symbol_pin_split demo3Conns).2.2.2 0 demoConnA (by decide)).trans (by decide),
    ((symbol_pin_split demo3Conns).2.2.2 1 demoConnB (by decide)).trans (by decide),
    ((symbol_pin_split demo3Conns).2.2.2 2 demoConnC (by decide)).trans (by decide)⟩

/-- C9: when no drawing entry resolves in the archive, the footprint is
skipped without aborting and the symbol is still emitted from the connector
table. -/
theorem footprint_skip_symbol_emitted (entries : List (Str × List Element))
    (hint : Option Str) (cs : List ConnData)
    (h : find_file_in_zip (entries.map Prod.fst) (hint.getD []) = none) :
    process_model entries hint cs = (none, generate_symbol_pins cs) := by
  unfold process_model generate_footprint_model
  rw [h]

/-- Witness for footprint_skip_symbol_emitted: an archive without the hinted
drawing still yields the symbol pins. -/
theorem footprint_skip_symbol_emitted_witness :
    find_file_in_zip (([] : List (Str × List Element)).map Prod.fst)
      ((some ("part.svg".data)).getD []) = none
    ∧ process_model [] (some ("part.svg".data)) onePadConns
        = (none, generate_symbol_pins onePadConns) :=
  ⟨by decide,
    footprint_skip_symbol_emitted [] (some ("part.svg".data)) onePadConns (by decide)⟩

end Fritzing
